import Mathlib

/-!
Verification of `organize_downloads.py` (a Downloads-folder organizer).

Shallow embedding conventions:
* A filesystem path is a list of path segments (`Path`), mirroring
  `pathlib.Path` components; `parent / name` is `parent ++ [name]`.
* The set of filesystem entries that currently exist is a `List Path`
  (membership = `Path.exists()`); `os.replace` removes the source path and
  makes the destination path exist.
* The action journal file (`logs/actions.jsonl`) is a `List ActionRecord`;
  an absent journal file behaves exactly like an empty one in the source
  (both log an error and return 0 from `undo_actions`), so the model
  identifies the two.
* Python `str(n)` for a natural number is modelled by `decimalStr`, a
  structurally recursive decimal-numeral printer.
* The unbounded `while True` collision loop is modelled with explicit
  fuel; the theorem `resolveLoop_first_free` shows the fuel used by
  `resolve_name_collision` is always enough, so the fuel-exhaustion
  branch is unreachable and the model computes exactly the first free
  candidate, as the source loop does.
* Logging calls are effect-free for the properties of interest and are
  not modelled.
-/

namespace OrganizeDownloads

/-- A filesystem path, as its list of components (`pathlib.Path.parts`). -/
abbrev Path := List String

/-- Little-endian decimal digits of `n`, with explicit fuel so that the
definition is structurally recursive and kernel-reducible.  With
`fuel ≥ n` this is the standard base-10 digit list of `n` (empty for 0). -/
def decimalDigitsAux : Nat → Nat → List Nat
  | 0, _ => []
  | _ + 1, 0 => []
  | f + 1, n + 1 => ((n + 1) % 10) :: decimalDigitsAux f ((n + 1) / 10)

/-- Valuation of a little-endian base-10 digit list. -/
def fromDigitsLE : List Nat → Nat
  | [] => 0
  | d :: rest => d + 10 * fromDigitsLE rest

/-- Model of Python `str(n)` for a non-negative integer: the decimal
numeral of `n` (as used when the source interpolates `{counter}` into an
f-string). -/
def decimalStr (n : Nat) : String :=
  if n = 0 then "0" else String.mk (((decimalDigitsAux n n).reverse).map Nat.digitChar)

/-- The final component of a path (`PurePath.name`; `""` for an empty path). -/
def pathName (p : Path) : String := p.getLast?.getD ""

/-- Index of the last occurrence of a character in a character list
(Python `str.rfind`, with `none` for "not found"). -/
def rfindIdx (cs : List Char) (c : Char) : Option Nat :=
  (cs.reverse.findIdx? (fun x => x = c)).map (fun j => cs.length - 1 - j)

/-- Model of `PurePath.suffix` of a file name: the part from the last dot
on, provided that dot is neither the first nor the last character
(CPython: `i = name.rfind('.'); return name[i:] if 0 < i < len(name)-1 else ''`). -/
def pySuffix (name : String) : String :=
  let cs := name.data
  match rfindIdx cs '.' with
  | some i => if 0 < i ∧ i < cs.length - 1 then String.mk (cs.drop i) else ""
  | none => ""

/-- Model of `PurePath.stem` of a file name: the name without its
`pySuffix`. -/
def pyStem (name : String) : String :=
  let cs := name.data
  match rfindIdx cs '.' with
  | some i => if 0 < i ∧ i < cs.length - 1 then String.mk (cs.take i) else name
  | none => name

/-- Python `str.lower()`: character-wise lower-casing (extensions are
ASCII, where this agrees with Python). -/
def pyLower (s : String) : String :=
  String.mk (s.data.map Char.toLower)

/-- The name tried by the collision loop at counter value `n`:
`f"{stem} ({counter}){suffix}"`. -/
def candidateName (stem suffix : String) (n : Nat) : String :=
  stem ++ " (" ++ decimalStr n ++ ")" ++ suffix

/-- The path tried by the collision loop at counter value `n`:
`parent / f"{stem} ({counter}){suffix}"`. -/
def candidatePath (parent : Path) (stem suffix : String) (n : Nat) : Path :=
  parent ++ [candidateName stem suffix n]

/-- The `while True` loop of `resolve_name_collision` (lines 86–91), with
explicit fuel in place of the unbounded loop.  The fuel-exhaustion branch
returns the current candidate; `resolveLoop_first_free` proves the fuel
passed by `resolve_name_collision` always suffices, so that branch is
unreachable and the function returns the first non-existing candidate
exactly as the source loop does. -/
def resolveLoop (fs : List Path) (parent : Path) (stem suffix : String) :
    Nat → Nat → Path
  | counter, fuel + 1 =>
    if candidatePath parent stem suffix counter ∈ fs then
      resolveLoop fs parent stem suffix (counter + 1) fuel
    else candidatePath parent stem suffix counter
  | counter, 0 => candidatePath parent stem suffix counter

/-- `resolve_name_collision` (lines 81–91): return `dest` unchanged when
it does not exist; otherwise split the name into stem and suffix and try
`f"{stem} ({counter}){suffix}"` for `counter = 1, 2, …` until a candidate
does not exist. -/
def resolve_name_collision (fs : List Path) (dest : Path) : Path :=
  if dest ∉ fs then dest
  else
    let parent := dest.dropLast
    let stem := pyStem (pathName dest)
    let suffix := pySuffix (pathName dest)
    resolveLoop fs parent stem suffix 1 (fs.length + 1)

/-- One line of the action journal (`record_action`, lines 105–113): the
UTC timestamp string and the source and final destination paths of one
completed move. -/
structure ActionRecord where
  timestamp : String
  src : Path
  dest : Path
deriving DecidableEq, Repr

/-- The mutable state the program touches: the set of existing filesystem
paths and the contents of the action journal file.  An absent journal file
is identified with an empty one (both make `undo_actions` return 0). -/
structure World where
  fs : List Path
  journal : List ActionRecord
deriving DecidableEq, Repr

/-- A file found by `scan_folder`: its name and its `stat().st_size`. -/
structure Entry where
  name : String
  size : Nat
deriving DecidableEq, Repr

/-- The configuration fields `organize` reads (log-file paths configure the
unmodelled logging subsystem; `Ignore` is consumed by `scan_folder`, whose
output is the `files` argument of `organize` below). -/
structure Config where
  downloadsPath : Path
  categories : List (String × List String)
  largeFileThresholdMB : Nat

/-- `os.replace(src, dst)`: `src` stops existing, `dst` exists (replacing
any previous entry at `dst`). -/
def osReplace (fs : List Path) (src dst : Path) : List Path :=
  dst :: fs.filter (fun p => p ≠ src ∧ p ≠ dst)

/-- `file_extension_lower` (lines 70–71): `path.suffix.lower()`, as a
function of the file's name. -/
def file_extension_lower (name : String) : String :=
  pyLower (pySuffix name)

/-- `find_category` (lines 74–78): first category whose (lower-cased)
extension list contains `ext`; `"Others"` when none does. -/
def find_category : String → List (String × List String) → String
  | _, [] => "Others"
  | ext, (cat, exts) :: rest =>
    if (exts.map pyLower).contains ext then cat else find_category ext rest

/-- The spec's `classify`: the extension is lower-cased before lookup, as
`organize` does via `file_extension_lower` (lines 140–141) before calling
`find_category`. -/
def classify (ext : String) (categories : List (String × List String)) : String :=
  find_category (pyLower ext) categories

/-- Destination computation in `organize` (lines 142–150): category folder
plus file name, with an extra `LargeFiles` segment when the threshold is
non-zero (Python truthiness of `config["LargeFileThresholdMB"]`) and
`st_size / (1024*1024) >= threshold` (exact rational division models the
float division). -/
def computeDest (downloads : Path) (threshold : Nat) (cat : String) (f : Entry) : Path :=
  let dest_folder := downloads ++ [cat]
  let dest_path := dest_folder ++ [f.name]
  if threshold ≠ 0 then
    let size_mb : ℚ := (f.size : ℚ) / (1024 * 1024)
    if (threshold : ℚ) ≤ size_mb then (dest_folder ++ ["LargeFiles"]) ++ [f.name]
    else dest_path
  else dest_path

/-- `safe_move` (lines 94–102): resolve the collision, then move.  The
`fails` oracle says whether both `os.replace` and the `shutil.move`
fallback raise for a given source and final destination (`none` = the
exception propagates to the caller); directory creation
(`dest.parent.mkdir`) is not tracked in the path-set model, and a
successful fallback leaves the same state as a successful rename. -/
def safe_move (fails : Path → Path → Bool) (src dest : Path) (fs : List Path) :
    Option (Path × List Path) :=
  let final_dest := resolve_name_collision fs dest
  if fails src final_dest then none
  else some (final_dest, osReplace fs src final_dest)

/-- `record_action` (lines 105–113): append one JSON line with the
timestamp, source and destination to the journal. -/
def record_action (journal : List ActionRecord) (now : String) (src dest : Path) :
    List ActionRecord :=
  journal ++ [⟨now, src, dest⟩]

/-- The body of `organize`'s per-file loop (lines 139–157) for one file:
classify, compute the destination, then either only log (dry run) or move
and journal.  `none` means the move raised and the exception propagates
(there is no `try` in the loop); the caller sees the pre-file world. -/
def processFile (downloads : Path) (threshold : Nat) (cats : List (String × List String))
    (fails : Path → Path → Bool) (now : String) (dryRun : Bool) (f : Entry) (w : World) :
    Option (String × World) :=
  let ext := file_extension_lower f.name
  let cat := find_category ext cats
  let dest_path := computeDest downloads threshold cat f
  if dryRun then some (cat, w)
  else
    match safe_move fails (downloads ++ [f.name]) dest_path w.fs with
    | none => none
    | some (final, fs2) =>
      some (cat, ⟨fs2, record_action w.journal now (downloads ++ [f.name]) final⟩)

/-- `RunSummary`: insertion-ordered category → count mapping (a Python
dict with string keys). -/
abbrev Summary := List (String × Nat)

/-- Dict comprehension `{k: 0 for k in list(categories.keys()) + ["Others"]}`
(line 136): first insertion wins the position, every value is 0. -/
def dictInit (keys : List String) : Summary :=
  keys.foldl (fun s k => if s.any (fun kv => kv.1 = k) then s else s ++ [(k, 0)]) []

/-- Python `summary.setdefault(cat, 0)` (line 159). -/
def dictSetdefault (s : Summary) (k : String) : Summary :=
  if s.any (fun kv => kv.1 = k) then s else s ++ [(k, 0)]

/-- Python `summary[cat] += 1` (line 160) on a dict (keys unique). -/
def dictIncr (s : Summary) (k : String) : Summary :=
  s.map (fun kv => if kv.1 = k then (kv.1, kv.2 + 1) else kv)

/-- Lines 159–160: `setdefault` then increment. -/
def bumpSummary (s : Summary) (k : String) : Summary :=
  dictIncr (dictSetdefault s k) k

/-- Line 163, `if preview_limit and idx + 1 >= preview_limit:`, with
Python truthiness (`None` and `0` are falsy). -/
def previewHit (previewLimit : Option Nat) (idx : Nat) : Bool :=
  match previewLimit with
  | some l => decide (l ≠ 0 ∧ idx + 1 ≥ l)
  | none => false

/-- The `for idx, file in enumerate(files)` loop of `organize`
(lines 139–165).  `none` in the first component means a move raised and
the run aborted; the returned world holds every mutation made before the
abort. -/
def organizeLoop (downloads : Path) (threshold : Nat) (cats : List (String × List String))
    (dryRun : Bool) (previewLimit : Option Nat) (fails : Path → Path → Bool) (now : String) :
    List Entry → Nat → Summary → World → Option Summary × World
  | [], _, summary, w => (some summary, w)
  | f :: rest, idx, summary, w =>
    match processFile downloads threshold cats fails now dryRun f w with
    | none => (none, w)
    | some (cat, w2) =>
      let summary2 := bumpSummary summary cat
      if previewHit previewLimit idx then (some summary2, w2)
      else organizeLoop downloads threshold cats dryRun previewLimit fails now
        rest (idx + 1) summary2 w2

/-- `organize` (lines 123–168).  `files` is the result of `scan_folder`
on the downloads directory (line 133); `now` is the wall-clock timestamp
used for journal records; category extension lists are lower-cased once
(line 131). -/
def organize (cfg : Config) (dryRun : Bool) (previewLimit : Option Nat)
    (fails : Path → Path → Bool) (now : String) (files : List Entry) (w : World) :
    Option Summary × World :=
  let cats := cfg.categories.map (fun p => (p.1, p.2.map pyLower))
  organizeLoop cfg.downloadsPath cfg.largeFileThresholdMB cats dryRun previewLimit fails now
    files 0 (dictInit (cats.map Prod.fst ++ ["Others"])) w

/-- Python slice `lines[-count:]` for a natural `count`: Python reads `-0`
as `0`, so `count = 0` selects the whole list, not the empty tail. -/
def pySliceLast {α : Type} (l : List α) (count : Nat) : List α :=
  if count = 0 then l else l.drop (l.length - count)

/-- Python slice `lines[:-count]` for a natural `count`: `count = 0` gives
`lines[:0]`, the empty list. -/
def pySliceInit {α : Type} (l : List α) (count : Nat) : List α :=
  if count = 0 then [] else l.take (l.length - count)

/-- The `for line in reversed(to_undo)` loop of `undo_actions`
(lines 188–197): reverse a record exactly when its destination currently
exists and its source currently does not, threading the filesystem state;
records are well-formed (no `json.loads` failure), and a failed
precondition is a logged skip. -/
def undoLoop : List ActionRecord → List Path → Nat → Nat × List Path
  | [], fs, undone => (undone, fs)
  | r :: rest, fs, undone =>
    if r.dest ∈ fs ∧ r.src ∉ fs then undoLoop rest (osReplace fs r.dest r.src) (undone + 1)
    else undoLoop rest fs undone

/-- `undo_actions` (lines 171–201): read the journal (missing or empty →
0), slice off the last `count` lines, reverse them most-recent-first, and
rewrite the journal with only the remaining lines. -/
def undo_actions (count : Nat) (w : World) : Nat × World :=
  if w.journal.isEmpty then (0, w)
  else
    let lines := w.journal
    let to_undo := pySliceLast lines count
    let remaining := pySliceInit lines count
    let res := undoLoop to_undo.reverse w.fs 0
    (res.1, ⟨res.2, remaining⟩)

/-- Accumulator-free restatement of the undo pass, used to phrase C4:
processing a record list front to back, a record is reversed exactly when
its destination exists and its source does not in the filesystem state at
its processing moment. -/
def undoReversalRun : List ActionRecord → List Path → Nat × List Path
  | [], fs => (0, fs)
  | r :: rest, fs =>
    if r.dest ∈ fs ∧ r.src ∉ fs then
      let res := undoReversalRun rest (osReplace fs r.dest r.src)
      (res.1 + 1, res.2)
    else undoReversalRun rest fs

/-! Theorems. -/

theorem fromDigitsLE_decimalDigitsAux :
    ∀ (f n : Nat), n ≤ f → fromDigitsLE (decimalDigitsAux f n) = n := by
  intro f
  induction f with
  | zero =>
    intro n hn
    interval_cases n
    simp [decimalDigitsAux, fromDigitsLE]
  | succ f ih =>
    intro n hn
    match n with
    | 0 => simp [decimalDigitsAux, fromDigitsLE]
    | m + 1 =>
      have hdiv : (m + 1) / 10 ≤ f := by
        have h1 : (m + 1) / 10 < m + 1 := Nat.div_lt_self (Nat.succ_pos m) (by omega)
        omega
      simp only [decimalDigitsAux, fromDigitsLE, ih _ hdiv]
      omega

theorem decimalDigitsAux_lt_ten :
    ∀ (f n d : Nat), d ∈ decimalDigitsAux f n → d < 10 := by
  intro f
  induction f with
  | zero => intro n d hd; simp [decimalDigitsAux] at hd
  | succ f ih =>
    intro n d hd
    match n with
    | 0 => simp [decimalDigitsAux] at hd
    | m + 1 =>
      simp only [decimalDigitsAux, List.mem_cons] at hd
      rcases hd with h | h
      · subst h; exact Nat.mod_lt _ (by omega)
      · exact ih _ _ h

theorem digitChar_inj_lt :
    ∀ a < 10, ∀ b < 10, Nat.digitChar a = Nat.digitChar b → a = b := by decide

theorem map_digitChar_inj :
    ∀ (l1 l2 : List Nat), (∀ d ∈ l1, d < 10) → (∀ d ∈ l2, d < 10) →
      l1.map Nat.digitChar = l2.map Nat.digitChar → l1 = l2 := by
  intro l1
  induction l1 with
  | nil => intro l2 _ _ h; cases l2 <;> simp_all
  | cons a t ih =>
    intro l2 h1 h2 h
    cases l2 with
    | nil => simp at h
    | cons b t2 =>
      simp only [List.map_cons, List.cons.injEq] at h
      have ha : a < 10 := h1 a (by simp)
      have hb : b < 10 := h2 b (by simp)
      have hab : a = b := digitChar_inj_lt a ha b hb h.1
      have ht : t = t2 := by
        refine ih t2 (fun d hd => h1 d (by simp [hd])) (fun d hd => h2 d (by simp [hd])) h.2
      simp [hab, ht]

theorem decimalStr_injective : Function.Injective decimalStr := by
  intro a b h
  unfold decimalStr at h
  by_cases ha : a = 0 <;> by_cases hb : b = 0
  · omega
  · exfalso
    simp only [ha, if_true, hb, if_false] at h
    have hdata : ("0" : String).data =
        ((decimalDigitsAux b b).reverse.map Nat.digitChar) := congrArg String.data h
    have h0 : ("0" : String).data = ['0'] := rfl
    rw [h0] at hdata
    -- a one-character numeral: the digit list of `b` is the single digit 0
    cases hrev : (decimalDigitsAux b b).reverse with
    | nil => rw [hrev] at hdata; simp at hdata
    | cons d t =>
      rw [hrev] at hdata
      cases t with
      | cons d2 t2 => simp at hdata
      | nil =>
        simp only [List.map_cons, List.map_nil, List.cons.injEq, and_true] at hdata
        have hd10 : d < 10 := by
          refine decimalDigitsAux_lt_ten b b d ?_
          have : d ∈ (decimalDigitsAux b b).reverse := by rw [hrev]; simp
          simpa using this
        have hd0 : d = 0 := by
          refine digitChar_inj_lt d hd10 0 (by omega) ?_
          simpa using hdata.symm
        have hlist : decimalDigitsAux b b = [d] := by
          have := congrArg List.reverse hrev
          simpa using this
        have := fromDigitsLE_decimalDigitsAux b b (le_refl b)
        rw [hlist, hd0] at this
        simp [fromDigitsLE] at this
        omega
  · exfalso
    simp only [ha, if_false, hb, if_true] at h
    have hdata : ((decimalDigitsAux a a).reverse.map Nat.digitChar) =
        ("0" : String).data := congrArg String.data h
    have h0 : ("0" : String).data = ['0'] := rfl
    rw [h0] at hdata
    cases hrev : (decimalDigitsAux a a).reverse with
    | nil => rw [hrev] at hdata; simp at hdata
    | cons d t =>
      rw [hrev] at hdata
      cases t with
      | cons d2 t2 => simp at hdata
      | nil =>
        simp only [List.map_cons, List.map_nil, List.cons.injEq, and_true] at hdata
        have hd10 : d < 10 := by
          refine decimalDigitsAux_lt_ten a a d ?_
          have : d ∈ (decimalDigitsAux a a).reverse := by rw [hrev]; simp
          simpa using this
        have hd0 : d = 0 := by
          refine digitChar_inj_lt d hd10 0 (by omega) ?_
          simpa using hdata
        have hlist : decimalDigitsAux a a = [d] := by
          have := congrArg List.reverse hrev
          simpa using this
        have := fromDigitsLE_decimalDigitsAux a a (le_refl a)
        rw [hlist, hd0] at this
        simp [fromDigitsLE] at this
        omega
  · simp only [ha, hb, if_false] at h
    have hdata := congrArg String.data h
    simp only [String.data] at hdata
    have hrev : (decimalDigitsAux a a).reverse = (decimalDigitsAux b b).reverse := by
      refine map_digitChar_inj _ _ ?_ ?_ hdata
      · intro d hd
        exact decimalDigitsAux_lt_ten a a d (by simpa using hd)
      · intro d hd
        exact decimalDigitsAux_lt_ten b b d (by simpa using hd)
    have hlist : decimalDigitsAux a a = decimalDigitsAux b b := by
      have := congrArg List.reverse hrev
      simpa using this
    have h1 := fromDigitsLE_decimalDigitsAux a a (le_refl a)
    have h2 := fromDigitsLE_decimalDigitsAux b b (le_refl b)
    rw [hlist, h2] at h1
    omega

theorem candidateName_injective (stem suffix : String) :
    Function.Injective (candidateName stem suffix) := by
  intro a b h
  apply decimalStr_injective
  unfold candidateName at h
  have hdata := congrArg String.data h
  simp only [String.data_append, List.append_assoc] at hdata
  have h1 := List.append_cancel_left hdata
  have h2 := List.append_cancel_left h1
  have h3 := List.append_cancel_right h2
  exact String.ext h3

theorem candidatePath_injective (parent : Path) (stem suffix : String) :
    Function.Injective (candidatePath parent stem suffix) := by
  intro a b h
  apply candidateName_injective stem suffix
  unfold candidatePath at h
  have := List.append_cancel_left h
  simpa using this

/-- The collision loop can always exit: within any window of `fs.length + 1`
successive counter values starting at 1 there is a candidate name that does
not currently exist. -/
theorem exists_candidate_free (fs : List Path) (parent : Path) (stem suffix : String) :
    ∃ k, k < fs.length + 1 ∧ candidatePath parent stem suffix (1 + k) ∉ fs := by
  by_contra hall
  push_neg at hall
  have hmap : ((List.range (fs.length + 1)).map
      (fun k => candidatePath parent stem suffix (1 + k))).Nodup := by
    refine (List.nodup_range _).map_on ?_
    intro a _ b _ hab
    have := candidatePath_injective parent stem suffix hab
    omega
  have hsub : (List.range (fs.length + 1)).map
      (fun k => candidatePath parent stem suffix (1 + k)) ⊆ fs := by
    intro p hp
    simp only [List.mem_map, List.mem_range] at hp
    obtain ⟨k, hk, rfl⟩ := hp
    exact hall k hk
  have hle := (hmap.subperm hsub).length_le
  simp at hle

/-- Given enough fuel to reach a free candidate, the loop returns the
first candidate (counter value at least the starting one) that does not
exist; every earlier candidate exists. -/
theorem resolveLoop_first_free (fs : List Path) (parent : Path) (stem suffix : String) :
    ∀ (fuel counter : Nat),
      (∃ k, k < fuel ∧ candidatePath parent stem suffix (counter + k) ∉ fs) →
      ∃ n, counter ≤ n ∧
        resolveLoop fs parent stem suffix counter fuel = candidatePath parent stem suffix n ∧
        candidatePath parent stem suffix n ∉ fs ∧
        (∀ m, counter ≤ m → m < n → candidatePath parent stem suffix m ∈ fs) := by
  intro fuel
  induction fuel with
  | zero =>
    intro counter h
    obtain ⟨k, hk, _⟩ := h
    omega
  | succ fuel ih =>
    intro counter h
    by_cases hc : candidatePath parent stem suffix counter ∈ fs
    · have hnext : ∃ k, k < fuel ∧ candidatePath parent stem suffix (counter + 1 + k) ∉ fs := by
        obtain ⟨k, hk, hfree⟩ := h
        match k with
        | 0 => exact absurd hc (by simpa using hfree)
        | k + 1 =>
          refine ⟨k, by omega, ?_⟩
          have : counter + (k + 1) = counter + 1 + k := by omega
          rw [this] at hfree
          exact hfree
      obtain ⟨n, hn, heq, hfree, hmin⟩ := ih (counter + 1) hnext
      refine ⟨n, by omega, ?_, hfree, ?_⟩
      · rw [← heq]
        simp [resolveLoop, hc]
      · intro m hm1 hm2
        by_cases hmc : m = counter
        · rw [hmc]; exact hc
        · exact hmin m (by omega) hm2
    · refine ⟨counter, le_refl counter, ?_, hc, ?_⟩
      · simp [resolveLoop, hc]
      · intro m hm1 hm2
        omega

/-- Full characterisation of collision resolution on an existing
destination: the result is the candidate at the least counter `n ≥ 1`
whose name does not exist. -/
theorem resolve_name_collision_of_mem (fs : List Path) (dest : Path) (hd : dest ∈ fs) :
    ∃ n, 1 ≤ n ∧
      resolve_name_collision fs dest =
        candidatePath dest.dropLast (pyStem (pathName dest)) (pySuffix (pathName dest)) n ∧
      candidatePath dest.dropLast (pyStem (pathName dest)) (pySuffix (pathName dest)) n ∉ fs ∧
      (∀ m, 1 ≤ m → m < n →
        candidatePath dest.dropLast (pyStem (pathName dest)) (pySuffix (pathName dest)) m
          ∈ fs) := by
  have hex : ∃ k, k < fs.length + 1 ∧
      candidatePath dest.dropLast (pyStem (pathName dest)) (pySuffix (pathName dest)) (1 + k)
        ∉ fs :=
    exists_candidate_free fs dest.dropLast (pyStem (pathName dest)) (pySuffix (pathName dest))
  obtain ⟨n, hn, heq, hfree, hmin⟩ := resolveLoop_first_free fs dest.dropLast
    (pyStem (pathName dest)) (pySuffix (pathName dest)) (fs.length + 1) 1 hex
  refine ⟨n, hn, ?_, hfree, hmin⟩
  rw [← heq]
  simp [resolve_name_collision, hd]

/-- The resolved destination never exists at resolution time. -/
theorem resolve_name_collision_not_mem (fs : List Path) (dest : Path) :
    resolve_name_collision fs dest ∉ fs := by
  by_cases hd : dest ∈ fs
  · obtain ⟨n, _, heq, hfree, _⟩ := resolve_name_collision_of_mem fs dest hd
    rw [heq]
    exact hfree
  · simp [resolve_name_collision, hd]

/-- A non-existing destination is returned unchanged. -/
theorem resolve_name_collision_of_not_mem (fs : List Path) (dest : Path)
    (hd : dest ∉ fs) : resolve_name_collision fs dest = dest := by
  simp [resolve_name_collision, hd]

/-- Resolution keeps the number of path components (the parent directory is
kept, only the final name changes). -/
theorem resolve_name_collision_length (fs : List Path) (dest : Path) (hne : dest ≠ []) :
    (resolve_name_collision fs dest).length = dest.length := by
  by_cases hd : dest ∈ fs
  · obtain ⟨n, _, heq, _, _⟩ := resolve_name_collision_of_mem fs dest hd
    rw [heq]
    simp only [candidatePath, List.length_append, List.length_dropLast, List.length_cons,
      List.length_nil]
    have := List.length_pos.mpr hne
    omega
  · simp [resolve_name_collision, hd]

/-- C2: For any destination path, collision resolution never returns a path
that exists at the moment it is computed: if the computed destination does
not exist it is returned unchanged, and if it exists the result is the first
candidate `parent / f"{stem} ({n}){suffix}"` with `n = 1, 2, …` that does not
exist (every earlier candidate with counter `≥ 1` exists). -/
theorem resolve_name_collision_spec (fs : List Path) (dest : Path) :
    resolve_name_collision fs dest ∉ fs ∧
    (dest ∉ fs → resolve_name_collision fs dest = dest) ∧
    (dest ∈ fs → ∃ n, 1 ≤ n ∧
      resolve_name_collision fs dest =
        dest.dropLast ++
          [pyStem (pathName dest) ++ " (" ++ decimalStr n ++ ")" ++ pySuffix (pathName dest)] ∧
      ∀ m, 1 ≤ m → m < n →
        dest.dropLast ++
          [pyStem (pathName dest) ++ " (" ++ decimalStr m ++ ")" ++ pySuffix (pathName dest)]
          ∈ fs) := by
  refine ⟨resolve_name_collision_not_mem fs dest, resolve_name_collision_of_not_mem fs dest, ?_⟩
  intro hd
  obtain ⟨n, hn, heq, _, hmin⟩ := resolve_name_collision_of_mem fs dest hd
  refine ⟨n, hn, ?_, ?_⟩
  · simpa [candidatePath, candidateName] using heq
  · intro m hm1 hm2
    simpa [candidatePath, candidateName] using hmin m hm1 hm2

/-- Witness for C2 at a concrete input: `d/a.txt` and `d/a (1).txt` both
exist, so resolving `d/a.txt` yields the first free counter value. -/
theorem resolve_name_collision_spec_witness :
    ∃ n, 1 ≤ n ∧
      resolve_name_collision [["d", "a.txt"], ["d", "a (1).txt"]] ["d", "a.txt"] =
        (["d", "a.txt"] : Path).dropLast ++
          [pyStem (pathName ["d", "a.txt"]) ++ " (" ++ decimalStr n ++ ")" ++
            pySuffix (pathName ["d", "a.txt"])] ∧
      ∀ m, 1 ≤ m → m < n →
        (["d", "a.txt"] : Path).dropLast ++
          [pyStem (pathName ["d", "a.txt"]) ++ " (" ++ decimalStr m ++ ")" ++
            pySuffix (pathName ["d", "a.txt"])]
          ∈ [["d", "a.txt"], ["d", "a (1).txt"]] :=
  (resolve_name_collision_spec [["d", "a.txt"], ["d", "a (1).txt"]] ["d", "a.txt"]).2.2
    (by decide)

theorem mem_osReplace (fs : List Path) (src dst p : Path) :
    p ∈ osReplace fs src dst ↔ p = dst ∨ (p ∈ fs ∧ p ≠ src ∧ p ≠ dst) := by
  simp [osReplace, List.mem_filter, and_assoc]

/-- C7: `classify` is total over all string inputs (it is a Lean function,
so totality and absence of side effects are structural): the input
extension is lower-cased before lookup, the declared categories are
scanned in configured order and the first category whose (lower-cased)
extension set contains the input wins, and when no category matches the
result is the default category name `"Others"`. -/
theorem classify_first_match_spec (ext : String) (cats : List (String × List String)) :
    classify ext cats = find_category (pyLower ext) cats ∧
    find_category (pyLower ext) cats =
      ((cats.find? (fun p => (p.2.map pyLower).contains (pyLower ext))).map
        Prod.fst).getD "Others" := by
  refine ⟨rfl, ?_⟩
  induction cats with
  | nil => rfl
  | cons c rest ih =>
    by_cases h : ((c.2.map pyLower).contains (pyLower ext) = true)
    · simp only [find_category, List.find?, h]
      simp
    · have h2 : (c.2.map pyLower).contains (pyLower ext) = false := by
        simpa using h
      simp only [find_category, List.find?, h2]
      simpa using ih

/-- C8: the destination gains the extra `LargeFiles` segment inside the
category folder exactly when the configured threshold is non-zero and
`fileSizeBytes / (1024*1024)` is at or above it; otherwise (strictly below
the threshold, or threshold 0) the destination is the plain category
folder. -/
theorem computeDest_largeFiles_spec (downloads : Path) (threshold : Nat) (cat : String)
    (f : Entry) :
    (computeDest downloads threshold cat f = downloads ++ [cat, "LargeFiles", f.name] ↔
      threshold ≠ 0 ∧ (threshold : ℚ) ≤ (f.size : ℚ) / (1024 * 1024)) ∧
    (computeDest downloads threshold cat f = downloads ++ [cat, f.name] ↔
      ¬(threshold ≠ 0 ∧ (threshold : ℚ) ≤ (f.size : ℚ) / (1024 * 1024))) := by
  have hne : downloads ++ [cat, "LargeFiles", f.name] ≠ downloads ++ [cat, f.name] := by
    intro h
    have := congrArg List.length h
    simp at this
  by_cases h1 : threshold = 0
  · have hval : computeDest downloads threshold cat f = downloads ++ [cat, f.name] := by
      simp [computeDest, h1]
    rw [hval]
    simp [h1, hne]
  · by_cases h2 : (threshold : ℚ) ≤ (f.size : ℚ) / (1024 * 1024)
    · have hval : computeDest downloads threshold cat f =
          downloads ++ [cat, "LargeFiles", f.name] := by
        simp [computeDest, h1, h2]
      rw [hval]
      simp [h1, h2, hne]
    · have hval : computeDest downloads threshold cat f = downloads ++ [cat, f.name] := by
        simp [computeDest, h1, h2]
      rw [hval]
      simp [h1, h2, hne]

/-- C9 counterexample: the claim "`move(src, dest)` returns a final
destination identical to the input `dest`" is false.  `safe_move` performs
collision resolution itself (line 96), so when the input destination
already exists it returns a renamed path instead: here `dl/Others/a.txt`
exists, and the move of `dl/a.txt` onto it does not return the input
destination. -/
theorem safe_move_returns_input_dest_counterexample :
    ¬ ((safe_move (fun _ _ => false) ["dl", "a.txt"] ["dl", "Others", "a.txt"]
          [["dl", "a.txt"], ["dl", "Others", "a.txt"]]).map Prod.fst =
        some ["dl", "Others", "a.txt"]) := by
  decide

/-- C9 amended: a successful `safe_move(src, dest)` returns the
destination produced by its own collision resolution of `dest` against the
live filesystem — equal to the input `dest` exactly when `dest` does not
already exist (collision resolution happens inside the mover, not
upstream), and never an occupied path. -/
theorem safe_move_returns_resolved_dest (fails : Path → Path → Bool) (src dest : Path)
    (fs : List Path) (final : Path) (fs2 : List Path)
    (h : safe_move fails src dest fs = some (final, fs2)) :
    final = resolve_name_collision fs dest ∧ final ∉ fs ∧
    (dest ∉ fs → final = dest) := by
  unfold safe_move at h
  by_cases hf : fails src (resolve_name_collision fs dest) = true
  · simp [hf] at h
  · simp only [hf, Bool.false_eq_true, if_false, if_neg hf, Option.some.injEq,
      Prod.mk.injEq] at h
    refine ⟨h.1.symm, ?_, ?_⟩
    · rw [← h.1]
      exact resolve_name_collision_not_mem fs dest
    · intro hd
      rw [← h.1]
      exact resolve_name_collision_of_not_mem fs dest hd

/-- Witness for C9's amended theorem: moving `dl/a.txt` to the unoccupied
`dl/Others/a.txt` returns that destination unchanged. -/
theorem safe_move_returns_resolved_dest_witness :
    (["dl", "Others", "a.txt"] : Path) ∉ [(["dl", "a.txt"] : Path)] ∧
    (["dl", "Others", "a.txt"] : Path) =
      resolve_name_collision [["dl", "a.txt"]] ["dl", "Others", "a.txt"] ∧
    (["dl", "Others", "a.txt"] : Path) ∉ [(["dl", "a.txt"] : Path)] ∧
    ((["dl", "Others", "a.txt"] : Path) ∉ [(["dl", "a.txt"] : Path)] →
      (["dl", "Others", "a.txt"] : Path) = ["dl", "Others", "a.txt"]) := by
  refine ⟨by decide, ?_⟩
  exact safe_move_returns_resolved_dest (fun _ _ => false) ["dl", "a.txt"]
    ["dl", "Others", "a.txt"] [["dl", "a.txt"]] ["dl", "Others", "a.txt"]
    (osReplace [["dl", "a.txt"]] ["dl", "a.txt"] ["dl", "Others", "a.txt"]) (by decide)

/-- C3: in a non-dry-run run each successful move appends exactly one
`ActionRecord` (the source path and the actually used final destination)
to the journal, sequenced after the physical move — the record's
destination exists in the post-move filesystem, so the journal never
records a move that did not happen; a dry-run leaves the whole world
(filesystem and journal) untouched, and a failed move aborts the file
with the pre-file world, journal unchanged, and no record. -/
theorem journal_record_iff_move (downloads : Path) (threshold : Nat)
    (cats : List (String × List String)) (fails : Path → Path → Bool) (now : String)
    (f : Entry) (w : World) (pl : Option Nat) (rest : List Entry) (idx : Nat) (s : Summary) :
    (processFile downloads threshold cats fails now true f w =
      some (find_category (file_extension_lower f.name) cats, w)) ∧
    (∀ cat w2, processFile downloads threshold cats fails now false f w = some (cat, w2) →
      ∃ final,
        safe_move fails (downloads ++ [f.name])
          (computeDest downloads threshold (find_category (file_extension_lower f.name) cats) f)
          w.fs = some (final, w2.fs) ∧
        w2.journal = w.journal ++ [⟨now, downloads ++ [f.name], final⟩] ∧
        final ∈ w2.fs) ∧
    (processFile downloads threshold cats fails now false f w = none →
      organizeLoop downloads threshold cats false pl fails now (f :: rest) idx s w =
        (none, w)) := by
  refine ⟨rfl, ?_, ?_⟩
  · intro cat w2 h
    unfold processFile at h
    simp only [if_neg (by simp : ¬(false = true))] at h
    cases hsm : safe_move fails (downloads ++ [f.name])
        (computeDest downloads threshold (find_category (file_extension_lower f.name) cats) f)
        w.fs with
    | none => rw [hsm] at h; simp at h
    | some pr =>
      rw [hsm] at h
      simp only [Option.some.injEq, Prod.mk.injEq] at h
      obtain ⟨hcat, hw2⟩ := h
      subst hw2
      refine ⟨pr.1, rfl, rfl, ?_⟩
      · show pr.1 ∈ pr.2
        unfold safe_move at hsm
        by_cases hf : fails (downloads ++ [f.name]) (resolve_name_collision w.fs
            (computeDest downloads threshold
              (find_category (file_extension_lower f.name) cats) f)) = true
        · simp [hf] at hsm
        · simp only [hf, Bool.false_eq_true, if_false, if_neg hf, Option.some.injEq] at hsm
          rw [← hsm]
          simp [osReplace]
  · intro h
    simp only [organizeLoop, h]

/-- Witness for C3 at concrete inputs: a successful move of `dl/a.jpg`
appends exactly its record, and a failing move aborts with the world
unchanged. -/
theorem journal_record_iff_move_witness :
    (∃ final,
      safe_move (fun _ _ => false) (["dl"] ++ ["a.jpg"])
        (computeDest ["dl"] 0
          (find_category (file_extension_lower "a.jpg") [("Images", [".jpg"])])
          ⟨"a.jpg", 5⟩)
        (World.mk [["dl", "a.jpg"]] []).fs =
          some (final, (World.mk [["dl", "Images", "a.jpg"]]
            [⟨"t0", ["dl", "a.jpg"], ["dl", "Images", "a.jpg"]⟩]).fs) ∧
      (World.mk [["dl", "Images", "a.jpg"]]
          [⟨"t0", ["dl", "a.jpg"], ["dl", "Images", "a.jpg"]⟩]).journal =
        (World.mk [["dl", "a.jpg"]] []).journal ++ [⟨"t0", ["dl"] ++ ["a.jpg"], final⟩] ∧
      final ∈ (World.mk [["dl", "Images", "a.jpg"]]
          [⟨"t0", ["dl", "a.jpg"], ["dl", "Images", "a.jpg"]⟩]).fs) ∧
    organizeLoop ["dl"] 0 [("Images", [".jpg"])] false none (fun _ _ => true) "t0"
        [⟨"a.jpg", 5⟩] 0 [("Images", 0), ("Others", 0)] (World.mk [["dl", "a.jpg"]] []) =
      (none, World.mk [["dl", "a.jpg"]] []) := by
  constructor
  · exact (journal_record_iff_move ["dl"] 0 [("Images", [".jpg"])] (fun _ _ => false) "t0"
      ⟨"a.jpg", 5⟩ (World.mk [["dl", "a.jpg"]] []) none [] 0 []).2.1
      "Images"
      (World.mk [["dl", "Images", "a.jpg"]] [⟨"t0", ["dl", "a.jpg"], ["dl", "Images", "a.jpg"]⟩])
      (by decide)
  · exact (journal_record_iff_move ["dl"] 0 [("Images", [".jpg"])] (fun _ _ => true) "t0"
      ⟨"a.jpg", 5⟩ (World.mk [["dl", "a.jpg"]] []) none [] 0
      [("Images", 0), ("Others", 0)]).2.2 (by decide)

theorem organizeLoop_dryRun_preserves (downloads : Path) (threshold : Nat)
    (cats : List (String × List String)) (pl : Option Nat) (fails : Path → Path → Bool)
    (now : String) :
    ∀ (files : List Entry) (idx : Nat) (s : Summary) (w : World),
      (organizeLoop downloads threshold cats true pl fails now files idx s w).2 = w := by
  intro files
  induction files with
  | nil => intro idx s w; rfl
  | cons f rest ih =>
    intro idx s w
    simp only [organizeLoop, processFile, if_pos rfl]
    by_cases hp : previewHit pl idx = true
    · simp [hp]
    · simp only [Bool.not_eq_true] at hp
      simp [hp, ih]

/-- C6: a dry run mutates neither the filesystem entries nor the journal
(the returned world is the input world), so two successive dry runs over
the same directory state return the same result — in particular identical
`RunSummary` values. -/
theorem organize_dryRun_idempotent (cfg : Config) (pl : Option Nat)
    (fails : Path → Path → Bool) (now : String) (files : List Entry) (w : World) :
    (organize cfg true pl fails now files w).2 = w ∧
    organize cfg true pl fails now files ((organize cfg true pl fails now files w).2) =
      organize cfg true pl fails now files w := by
  have h : (organize cfg true pl fails now files w).2 = w := by
    unfold organize
    exact organizeLoop_dryRun_preserves cfg.downloadsPath cfg.largeFileThresholdMB
      (cfg.categories.map (fun p => (p.1, p.2.map pyLower))) pl fails now files 0 _ w
  exact ⟨h, by rw [h]⟩

theorem undoLoop_eq_undoReversalRun (l : List ActionRecord) :
    ∀ (fs : List Path) (u : Nat),
      undoLoop l fs u = (u + (undoReversalRun l fs).1, (undoReversalRun l fs).2) := by
  induction l with
  | nil => intro fs u; simp [undoLoop, undoReversalRun]
  | cons r rest ih =>
    intro fs u
    by_cases h : r.dest ∈ fs ∧ r.src ∉ fs
    · simp only [undoLoop, undoReversalRun, if_pos h, ih, Prod.mk.injEq]
      exact ⟨by omega, trivial⟩
    · simp only [undoLoop, undoReversalRun, if_neg h, ih]

/-- C4: for `n ≥ 1`, `undo_actions` selects the last `min(n, total)`
records (the tail slice, whose length is `min n total`), processes them in
reverse chronological order reversing exactly those whose destination
currently exists and whose source currently does not (`undoReversalRun`
threads the filesystem state), removes every selected record — reversed or
skipped — from the tail of the journal, and returns the number actually
reversed; a missing-or-empty journal returns 0 with nothing touched. -/
theorem undo_actions_spec (n : Nat) (w : World) (hn : 1 ≤ n) :
    (w.journal = [] → undo_actions n w = (0, w)) ∧
    (w.journal ≠ [] →
      pySliceLast w.journal n = w.journal.drop (w.journal.length - n) ∧
      (pySliceLast w.journal n).length = min n w.journal.length ∧
      undo_actions n w =
        ((undoReversalRun (pySliceLast w.journal n).reverse w.fs).1,
         ⟨(undoReversalRun (pySliceLast w.journal n).reverse w.fs).2,
          w.journal.take (w.journal.length - n)⟩)) := by
  have hn0 : n ≠ 0 := by omega
  constructor
  · intro h
    simp [undo_actions, h]
  · intro h
    refine ⟨by simp [pySliceLast, hn0], ?_, ?_⟩
    · simp only [pySliceLast, if_neg hn0, List.length_drop]
      omega
    · simp only [undo_actions]
      rw [if_neg (by simp [h])]
      simp only [undoLoop_eq_undoReversalRun, Nat.zero_add]
      simp [pySliceInit, hn0]

/-- Witness for C4: undoing 1 action with a one-record journal whose
destination exists and whose source is gone. -/
theorem undo_actions_spec_witness :
    pySliceLast (World.mk [["d", "x"]] [⟨"t", ["s"], ["d", "x"]⟩]).journal 1 =
      (World.mk [["d", "x"]] [⟨"t", ["s"], ["d", "x"]⟩]).journal.drop
        ((World.mk [["d", "x"]] [⟨"t", ["s"], ["d", "x"]⟩]).journal.length - 1) ∧
    (pySliceLast (World.mk [["d", "x"]] [⟨"t", ["s"], ["d", "x"]⟩]).journal 1).length =
      min 1 (World.mk [["d", "x"]] [⟨"t", ["s"], ["d", "x"]⟩]).journal.length ∧
    undo_actions 1 (World.mk [["d", "x"]] [⟨"t", ["s"], ["d", "x"]⟩]) =
      ((undoReversalRun
          (pySliceLast (World.mk [["d", "x"]] [⟨"t", ["s"], ["d", "x"]⟩]).journal 1).reverse
          (World.mk [["d", "x"]] [⟨"t", ["s"], ["d", "x"]⟩]).fs).1,
       ⟨(undoReversalRun
          (pySliceLast (World.mk [["d", "x"]] [⟨"t", ["s"], ["d", "x"]⟩]).journal 1).reverse
          (World.mk [["d", "x"]] [⟨"t", ["s"], ["d", "x"]⟩]).fs).2,
        (World.mk [["d", "x"]] [⟨"t", ["s"], ["d", "x"]⟩]).journal.take
          ((World.mk [["d", "x"]] [⟨"t", ["s"], ["d", "x"]⟩]).journal.length - 1)⟩) :=
  (undo_actions_spec 1 (World.mk [["d", "x"]] [⟨"t", ["s"], ["d", "x"]⟩])
    (by decide)).2 (by decide)

/-- C10: calling `undo_actions` with count 0 on a non-empty journal does
not undo zero records: the Python tail slice `lines[-0:]` selects every
record, so the whole journal is processed for reversal and the journal is
truncated to empty.  (The CLI cannot reach this: `main` only calls
`undo_actions` when `args.undo` is truthy, i.e. non-zero — lines 225–227 —
but the function itself behaves as stated.) -/
theorem undo_actions_zero_spec (w : World) (h : w.journal ≠ []) :
    pySliceLast w.journal 0 = w.journal ∧
    undo_actions 0 w =
      ((undoReversalRun w.journal.reverse w.fs).1,
       ⟨(undoReversalRun w.journal.reverse w.fs).2, []⟩) := by
  refine ⟨rfl, ?_⟩
  simp only [undo_actions]
  rw [if_neg (by simp [h])]
  simp only [undoLoop_eq_undoReversalRun, Nat.zero_add]
  simp [pySliceLast, pySliceInit]

/-- Witness for C10: with one record in the journal, count 0 attempts the
whole journal (here the record is reversed) and empties the journal. -/
theorem undo_actions_zero_spec_witness :
    pySliceLast (World.mk [["d", "x"]] [⟨"t", ["s"], ["d", "x"]⟩]).journal 0 =
      (World.mk [["d", "x"]] [⟨"t", ["s"], ["d", "x"]⟩]).journal ∧
    undo_actions 0 (World.mk [["d", "x"]] [⟨"t", ["s"], ["d", "x"]⟩]) =
      ((undoReversalRun (World.mk [["d", "x"]] [⟨"t", ["s"], ["d", "x"]⟩]).journal.reverse
          (World.mk [["d", "x"]] [⟨"t", ["s"], ["d", "x"]⟩]).fs).1,
       ⟨(undoReversalRun (World.mk [["d", "x"]] [⟨"t", ["s"], ["d", "x"]⟩]).journal.reverse
          (World.mk [["d", "x"]] [⟨"t", ["s"], ["d", "x"]⟩]).fs).2, []⟩) :=
  undo_actions_zero_spec (World.mk [["d", "x"]] [⟨"t", ["s"], ["d", "x"]⟩]) (by decide)

/-- The computed destination is the downloads directory plus two segments
(category, name) or three (category, `LargeFiles`, name). -/
theorem computeDest_length (downloads : Path) (threshold : Nat) (cat : String) (f : Entry) :
    (computeDest downloads threshold cat f).length = downloads.length + 2 ∨
    (computeDest downloads threshold cat f).length = downloads.length + 3 := by
  unfold computeDest
  by_cases h1 : threshold = 0
  · simp [h1]
  · by_cases h2 : (threshold : ℚ) ≤ (f.size : ℚ) / (1024 * 1024)
    · simp [h1, h2]
    · simp [h1, h2]

/-- C1: a single successful non-dry-run move of a file (one iteration of
`organize`'s loop) followed immediately by `undo_actions 1` reverses
exactly one record, restores the file to its original pre-move path,
leaves the set of existing paths exactly as before the move, and removes
the last journal record, leaving the journal as it was before the move. -/
theorem move_undo_roundtrip (downloads : Path) (threshold : Nat)
    (cats : List (String × List String)) (fails : Path → Path → Bool) (now : String)
    (f : Entry) (w : World) (cat : String) (w2 : World)
    (hsrc : downloads ++ [f.name] ∈ w.fs)
    (hrun : processFile downloads threshold cats fails now false f w = some (cat, w2)) :
    (undo_actions 1 w2).1 = 1 ∧
    (undo_actions 1 w2).2.journal = w.journal ∧
    downloads ++ [f.name] ∈ (undo_actions 1 w2).2.fs ∧
    (∀ p, p ∈ (undo_actions 1 w2).2.fs ↔ p ∈ w.fs) := by
  unfold processFile safe_move at hrun
  simp only [Bool.false_eq_true, if_false] at hrun
  set src := downloads ++ [f.name] with hsrcdef
  set dest := computeDest downloads threshold
    (find_category (file_extension_lower f.name) cats) f with hdestdef
  set final := resolve_name_collision w.fs dest with hfinaldef
  by_cases hf : fails src final = true
  · rw [if_pos hf] at hrun
    simp at hrun
  · rw [if_neg hf] at hrun
    simp only [Option.some.injEq, Prod.mk.injEq] at hrun
    obtain ⟨hcat, hw2⟩ := hrun
    have hfin : final ∉ w.fs := by
      rw [hfinaldef]
      exact resolve_name_collision_not_mem w.fs dest
    have hdlen : dest.length = downloads.length + 2 ∨
        dest.length = downloads.length + 3 := by
      rw [hdestdef]
      exact computeDest_length downloads threshold
        (find_category (file_extension_lower f.name) cats) f
    have hdne : dest ≠ [] := by
      intro h
      rw [h] at hdlen
      simp at hdlen
    have hflen : final.length = dest.length := by
      rw [hfinaldef]
      exact resolve_name_collision_length w.fs dest hdne
    have hsne : src ≠ final := by
      intro h
      have hl := congrArg List.length h
      rw [hsrcdef] at hl
      simp only [List.length_append, List.length_cons, List.length_nil] at hl
      omega
    -- the post-move world
    have hw2fs : w2.fs = osReplace w.fs src final := by rw [← hw2]
    have hw2j : w2.journal = w.journal ++ [⟨now, src, final⟩] := by
      rw [← hw2]
      rfl
    -- evaluate `undo_actions 1` on it
    have hne0 : w2.journal ≠ [] := by
      rw [hw2j]
      simp
    have hslice : pySliceLast w2.journal 1 = [⟨now, src, final⟩] := by
      rw [hw2j]
      simp only [pySliceLast, if_neg (by omega : (1 : Nat) ≠ 0)]
      refine List.drop_left' ?_
      simp
    have hinit : pySliceInit w2.journal 1 = w.journal := by
      rw [hw2j]
      simp only [pySliceInit, if_neg (by omega : (1 : Nat) ≠ 0)]
      refine List.take_left' ?_
      simp
    have hdmem : final ∈ w2.fs := by
      rw [hw2fs]
      exact (mem_osReplace w.fs src final final).mpr (Or.inl rfl)
    have hsnot : src ∉ w2.fs := by
      rw [hw2fs]
      intro hmem
      rcases (mem_osReplace w.fs src final src).mp hmem with h | ⟨_, h, _⟩
      · exact hsne h
      · exact h rfl
    have hundo : undo_actions 1 w2 =
        (1, ⟨osReplace w2.fs final src, w.journal⟩) := by
      simp only [undo_actions]
      rw [if_neg (by simp [hne0])]
      rw [hslice, hinit]
      simp only [List.reverse_cons, List.reverse_nil, List.nil_append]
      simp only [undoLoop, if_pos (And.intro hdmem hsnot)]
    rw [hundo]
    refine ⟨rfl, rfl, ?_, ?_⟩
    · show src ∈ osReplace w2.fs final src
      exact (mem_osReplace w2.fs final src src).mpr (Or.inl rfl)
    · intro p
      show p ∈ osReplace w2.fs final src ↔ p ∈ w.fs
      rw [hw2fs]
      simp only [mem_osReplace]
      constructor
      · rintro (rfl | ⟨hpA, hpnf, hpns⟩)
        · exact hsrc
        · rcases hpA with rfl | ⟨hpw, _, _⟩
          · exact absurd rfl hpnf
          · exact hpw
      · intro hp
        by_cases hps : p = src
        · exact Or.inl hps
        · have hpf : p ≠ final := by
            intro hpf
            exact hfin (hpf ▸ hp)
          exact Or.inr ⟨Or.inr ⟨hp, hps, hpf⟩, hpf, hps⟩

/-- Witness for C1: moving `dl/a.jpg` to `dl/Images/a.jpg` and undoing one
action restores the original state. -/
theorem move_undo_roundtrip_witness :
    (undo_actions 1 (World.mk [["dl", "Images", "a.jpg"]]
        [⟨"t0", ["dl", "a.jpg"], ["dl", "Images", "a.jpg"]⟩])).1 = 1 ∧
    (undo_actions 1 (World.mk [["dl", "Images", "a.jpg"]]
        [⟨"t0", ["dl", "a.jpg"], ["dl", "Images", "a.jpg"]⟩])).2.journal =
      (World.mk [["dl", "a.jpg"]] []).journal ∧
    ["dl"] ++ ["a.jpg"] ∈ (undo_actions 1 (World.mk [["dl", "Images", "a.jpg"]]
        [⟨"t0", ["dl", "a.jpg"], ["dl", "Images", "a.jpg"]⟩])).2.fs ∧
    (["dl", "Images", "a.jpg"] ∈ (undo_actions 1 (World.mk [["dl", "Images", "a.jpg"]]
        [⟨"t0", ["dl", "a.jpg"], ["dl", "Images", "a.jpg"]⟩])).2.fs ↔
      ["dl", "Images", "a.jpg"] ∈ (World.mk [["dl", "a.jpg"]] []).fs) :=
  have h := move_undo_roundtrip ["dl"] 0 [("Images", [".jpg"])] (fun _ _ => false) "t0"
    ⟨"a.jpg", 5⟩ (World.mk [["dl", "a.jpg"]] []) "Images"
    (World.mk [["dl", "Images", "a.jpg"]]
      [⟨"t0", ["dl", "a.jpg"], ["dl", "Images", "a.jpg"]⟩])
    (by decide) (by decide)
  ⟨h.1, h.2.1, h.2.2.1, h.2.2.2 ["dl", "Images", "a.jpg"]⟩

/-- C5 (code defect): `organize` has no `try`/`except` around `safe_move`
(lines 154–157), so when both the rename and the fallback fail for one
file the exception propagates and aborts the whole run.  Concretely: two
files to organize, the move of the first raises — the result carries no
summary (`none`), the second file is never processed (it is still at its
original path), the failed file is not counted and no journal entry is
written, but the run does NOT continue with the remaining files as the
spec requires. -/
theorem organize_aborts_run_on_move_failure :
    organize ⟨["dl"], [("Images", [".jpg"])], 0⟩ false none
        (fun src _ => src == ["dl", "a.jpg"]) "t0"
        [⟨"a.jpg", 1⟩, ⟨"b.jpg", 1⟩]
        (World.mk [["dl", "a.jpg"], ["dl", "b.jpg"]] []) =
      (none, World.mk [["dl", "a.jpg"], ["dl", "b.jpg"]] []) := by
  decide

end OrganizeDownloads
